import Mathlib

/-!
Verification of the roster-extraction engine of the Staffing-Dashboard
repository (`services/docProcessor.ts`, revision kept as `src/unnamed/part_000`).

The TypeScript source is shallowly embedded: DOM nodes become records whose
`innerText` / `textContent` fields carry the rendered text the browser would
expose, JavaScript strings become `String`, JavaScript regular expressions are
run by a small backtracking matcher over an explicit regex AST (one AST value
per regex literal of the source), `parseInt` / `Number.toString` / `new Date` /
`toISOString` are modelled by executable functions over `Nat`/`Int`, and the
one `throw` of the parser turns the entry points into `Except String` values.
The ambient clock (`new Date()` with no argument) is an explicit `YMD`
parameter; the `Date` model works in UTC.
-/

/-! ### JavaScript character classes and elementary string operations -/

/-- Model of the JavaScript regex class `\s` (and of the whitespace removed by
`String.prototype.trim`), restricted to the characters that can occur in the
documents: ASCII whitespace plus NBSP. -/
def jsIsSpace (c : Char) : Bool :=
  c == ' ' || c == '\t' || c == '\n' || c == '\r' ||
  c == Char.ofNat 11 || c == Char.ofNat 12 || c == Char.ofNat 160

/-- Model of the JavaScript regex class `\w` = `[A-Za-z0-9_]`. -/
def jsIsWordChar (c : Char) : Bool :=
  c.isAlpha || c.isDigit || c == '_'

/-- Whether `pat` occurs at the head of `l`. -/
def leadsList : List Char → List Char → Bool
  | [], _ => true
  | _ :: _, [] => false
  | p :: ps, c :: cs => p == c && leadsList ps cs

/-- Whether `pat` occurs somewhere in `l` (JavaScript `String.prototype.includes`). -/
def hasSubList (pat : List Char) : List Char → Bool
  | [] => leadsList pat []
  | l@(_ :: t) => leadsList pat l || hasSubList pat t

/-- JavaScript `s.includes(pat)`. -/
def strIncludes (s pat : String) : Bool :=
  hasSubList pat.toList s.toList

/-- JavaScript `s.replace(/\s/g, '')`. -/
def stripWs (s : String) : String :=
  String.mk (s.toList.filter (fun c => !jsIsSpace c))

/-- JavaScript `s.trim()`. -/
def jsTrim (s : String) : String :=
  String.mk (((s.toList.dropWhile jsIsSpace).reverse.dropWhile jsIsSpace).reverse)

/-- JavaScript `s.toUpperCase()` (ASCII). -/
def jsToUpper (s : String) : String := String.mk (s.toList.map Char.toUpper)

/-- JavaScript `s.toLowerCase()` (ASCII). -/
def jsToLower (s : String) : String := String.mk (s.toList.map Char.toLower)

/-! ### Decimal numerals: `Number.prototype.toString` and `parseInt(s, 10)` -/

/-- The decimal digit character for `k` (`k < 10`; other values give `'9'`). -/
def digitChar (k : Nat) : Char :=
  match k with
  | 0 => '0' | 1 => '1' | 2 => '2' | 3 => '3' | 4 => '4'
  | 5 => '5' | 6 => '6' | 7 => '7' | 8 => '8' | _ => '9'

/-- Numeric value of a decimal digit character. -/
def digitVal (c : Char) : Nat := c.toNat - 48

/-- Decimal digit list of a natural number, most significant first; `fuel`
bounds the number of divisions (any `fuel > n` gives the digits). -/
def natDigitsGo : Nat → Nat → List Char
  | 0, _ => []
  | fuel + 1, n =>
    if n < 10 then [digitChar n]
    else natDigitsGo fuel (n / 10) ++ [digitChar (n % 10)]

/-- Decimal digit list of a natural number, most significant first. -/
def natDigits (n : Nat) : List Char := natDigitsGo (n + 1) n

/-- JavaScript `n.toString()` for a nonnegative number. -/
def natRepr (n : Nat) : String := String.mk (natDigits n)

/-- Value of a list of decimal digit characters, most significant first. -/
def digitsVal (l : List Char) : Nat :=
  l.foldl (fun a c => 10 * a + digitVal c) 0

/-- JavaScript `parseInt(s, 10)`: skip leading whitespace, read an optional
sign and then a maximal run of decimal digits, ignoring everything after it;
`NaN` (here `none`) when no digit is found. -/
def jsParseInt (s : String) : Option Int :=
  let l := s.toList.dropWhile jsIsSpace
  let sl : Int × List Char :=
    match l with
    | '-' :: t => (-1, t)
    | '+' :: t => (1, t)
    | _ => (1, l)
  let ds := sl.2.takeWhile Char.isDigit
  if ds.isEmpty then none else some (sl.1 * (digitsVal ds : Int))

/-! ### A small backtracking regex engine

JavaScript regexes of the source are encoded as values of `RE` and executed by
`mAll`, which returns every way the pattern can match a prefix of the input,
in the engine's backtracking priority order (first element = the match
JavaScript commits to).  Each result is the remaining suffix together with the
text of capture group 1, when the pattern contains a `group`.  `star`/`plusLazy`
iterations are required to consume input, which is how a backtracking engine
avoids divergence on our patterns (their bodies always consume); `fuel` bounds
the number of iterations and `input length + 1` is always enough. -/

inductive RE where
  /-- matches the empty string -/
  | eps
  /-- one character satisfying the predicate -/
  | cls (p : Char → Bool)
  /-- concatenation -/
  | seq (a b : RE)
  /-- alternation, `a` preferred -/
  | alt (a b : RE)
  /-- greedy `?` -/
  | opt (r : RE)
  /-- greedy `*` -/
  | star (r : RE)
  /-- lazy `+?` -/
  | plusLazy (r : RE)
  /-- capture group 1 -/
  | group (r : RE)
  /-- the assertion `\b` in trailing position, where the character before it
  is always a word character: holds when the next character is absent or not a
  word character -/
  | nextNonWord

/-- All matches of `re` against a prefix of `s`, in priority order: each
result is the unconsumed suffix paired with the capture of group 1.  `fuel`
bounds the depth of the backtracking call tree (it only runs out when the
caller under-supplies it; `searchFrom` always supplies enough). -/
def mAll : Nat → RE → List Char → List (List Char × Option (List Char))
  | 0, _, _ => []
  | fuel + 1, re, s =>
    match re, s with
    | .eps, s => [(s, none)]
    | .cls _, [] => []
    | .cls p, c :: t => if p c then [(t, none)] else []
    | .seq a b, s =>
        (mAll fuel a s).flatMap fun r1 =>
          (mAll fuel b r1.1).map fun r2 => (r2.1, r1.2 <|> r2.2)
    | .alt a b, s => mAll fuel a s ++ mAll fuel b s
    | .opt r, s => mAll fuel r s ++ [(s, none)]
    | .star r, s =>
        ((mAll fuel r s).flatMap fun r1 =>
          if r1.1.length < s.length then mAll fuel (.star r) r1.1 else []) ++
        [(s, none)]
    | .plusLazy r, s =>
        (mAll fuel r s).flatMap fun r1 =>
          (r1.1, r1.2) ::
            (if r1.1.length < s.length then mAll fuel (.plusLazy r) r1.1 else [])
    | .group r, s =>
        (mAll fuel r s).map fun r1 => (r1.1, some (s.take (s.length - r1.1.length)))
    | .nextNonWord, s =>
        match s with
        | [] => [([], none)]
        | c :: _ => if jsIsWordChar c then [] else [(s, none)]

/-- Number of constructors of a regex, used to size the fuel. -/
def reSize : RE → Nat
  | .eps => 1
  | .cls _ => 1
  | .seq a b => reSize a + reSize b + 1
  | .alt a b => reSize a + reSize b + 1
  | .opt r => reSize r + 1
  | .star r => reSize r + 1
  | .plusLazy r => reSize r + 1
  | .group r => reSize r + 1
  | .nextNonWord => 1

/-- Fuel that dominates the call-tree depth of `mAll` for `re` on `s`: every
iteration of a repetition consumes input, so the depth is below the regex
size times the input length (plus slack). -/
def fuelFor (re : RE) (s : List Char) : Nat :=
  (s.length + 2) * (reSize re + 2)

/-- One regex-match result inside a string: the text before the match, the
matched text, the capture of group 1 and the text after the match. -/
structure MatchRes where
  pre : List Char
  matched : List Char
  cap : Option (List Char)
  rest : List Char
deriving DecidableEq

/-- Does a `\b` assertion hold between `prev` (the character just before the
current position) and the upcoming text? -/
def boundaryOk (needB : Bool) (prev : Option Char) (s : List Char) : Bool :=
  !needB ||
    ((prev.map jsIsWordChar).getD false != ((s.head?).map jsIsWordChar).getD false)

/-- Scan for the leftmost position where `re` matches, as JavaScript
`String.prototype.match` does for a regex without the `g` flag.  `needB`
replays a `\b` at the very start of the pattern.  `preRev` accumulates the
already-scanned text in reverse; `prev` is the character just before the
current position. -/
def searchFrom (re : RE) (needB : Bool) :
    List Char → Option Char → List Char → Option MatchRes
  | preRev, prev, s =>
    let here : Option MatchRes :=
      if boundaryOk needB prev s then
        match mAll (fuelFor re s) re s with
        | [] => none
        | r :: _ => some ⟨preRev.reverse, s.take (s.length - r.1.length), r.2, r.1⟩
      else none
    match here with
    | some r => some r
    | none =>
      match s with
      | [] => none
      | c :: t => searchFrom re needB (c :: preRev) (some c) t

/-- JavaScript `s.match(re)` (no `g` flag): leftmost match or `none`. -/
def jsSearch (needB : Bool) (re : RE) (s : String) : Option MatchRes :=
  searchFrom re needB [] none s.toList

/-- JavaScript `re.test(s)`. -/
def jsTest (needB : Bool) (re : RE) (s : String) : Bool :=
  (jsSearch needB re s).isSome

/-- A case-sensitive literal string, one `cls` per character. -/
def strRE (s : String) : RE :=
  s.toList.foldr (fun c r => .seq (.cls (fun x => x == c)) r) .eps

/-- A case-insensitive literal string (for regexes with the `i` flag). -/
def istrRE (s : String) : RE :=
  s.toList.foldr (fun c r => .seq (.cls (fun x => x.toLower == c.toLower)) r) .eps

/-! ### The concrete regexes of `docProcessor.ts` -/

/-- The class `\d`. -/
def digitRE : RE := .cls Char.isDigit

/-- The pattern `\s+`. -/
def wsPlusRE : RE := .seq (.cls jsIsSpace) (.star (.cls jsIsSpace))

/-- The pattern `\d{1,2}` (greedy: two digits preferred) -/
def d12RE : RE := .seq digitRE (.opt digitRE)

/-- The pattern `\d{4}`. -/
def d4RE : RE := .seq digitRE (.seq digitRE (.seq digitRE digitRE))

/-- The pattern `,?`. -/
def commaOptRE : RE := .opt (.cls (fun c => c == ','))

/-- The pattern `(?:mon|tue|wed|thu|fri|sat|sun)` with the `i` flag. -/
def weekdayAltIRE : RE :=
  .alt (istrRE "mon") (.alt (istrRE "tue") (.alt (istrRE "wed") (.alt (istrRE "thu")
    (.alt (istrRE "fri") (.alt (istrRE "sat") (istrRE "sun"))))))

/-- The pattern `(?:st|nd|rd|th)?` with the `i` flag. -/
def ordSuffixOptIRE : RE :=
  .opt (.alt (istrRE "st") (.alt (istrRE "nd") (.alt (istrRE "rd") (istrRE "th"))))

/-- The long-form date regex
`/\b(?:mon|tue|wed|thu|fri|sat|sun)\w*,?\s+\w+\s+\d{1,2}(?:st|nd|rd|th)?,?\s+\d{4}\b/i`
(the leading `\b` is replayed by `jsSearch true`). -/
def dateLongRE : RE :=
  .seq weekdayAltIRE (.seq (.star (.cls jsIsWordChar)) (.seq commaOptRE
    (.seq wsPlusRE (.seq (.seq (.cls jsIsWordChar) (.star (.cls jsIsWordChar)))
      (.seq wsPlusRE (.seq d12RE (.seq ordSuffixOptIRE (.seq commaOptRE
        (.seq wsPlusRE (.seq d4RE .nextNonWord))))))))))

/-- The regex `/(\d{1,2})(st|nd|rd|th)/` — case-sensitive, used by the ordinal-stripping
`replace` whose replacement is `'$1'`. -/
def ordStripRE : RE :=
  .seq (.group d12RE)
    (.alt (strRE "st") (.alt (strRE "nd") (.alt (strRE "rd") (strRE "th"))))

/-- The regex `/\d{4}-\d{2}-\d{2}/`. -/
def isoRE : RE :=
  .seq d4RE (.seq (.cls (fun c => c == '-')) (.seq digitRE (.seq digitRE
    (.seq (.cls (fun c => c == '-')) (.seq digitRE digitRE)))))

/-- The regex `/\d{1,2}\/\d{1,2}\/\d{2,4}/` (`\d{2,4}` greedy: 4, then 3, then 2) -/
def slashRE : RE :=
  .seq d12RE (.seq (.cls (fun c => c == '/')) (.seq d12RE
    (.seq (.cls (fun c => c == '/'))
      (.seq digitRE (.seq digitRE (.opt (.seq digitRE (.opt digitRE))))))))

/-- The regex `/\b(?:mon|tue|wed|thu|fri|sat|sun)/` — case-sensitive (no `i` flag), the
weekday test of `parseInfoTable`; leading `\b` replayed by `jsTest true`. -/
def weekdayCsRE : RE :=
  .alt (strRE "mon") (.alt (strRE "tue") (.alt (strRE "wed") (.alt (strRE "thu")
    (.alt (strRE "fri") (.alt (strRE "sat") (strRE "sun"))))))

/-- The class matched by `.` (anything but a line terminator). -/
def jsDotChar (c : Char) : Bool :=
  !(c == '\n' || c == '\r' || c.toNat == 0x2028 || c.toNat == 0x2029)

/-- The pattern `7[aA]-7[pP]`. -/
def sevenA7pRE : RE :=
  .seq (.cls (fun c => c == '7')) (.seq (.cls (fun c => c == 'a' || c == 'A'))
    (.seq (.cls (fun c => c == '-')) (.seq (.cls (fun c => c == '7'))
      (.cls (fun c => c == 'p' || c == 'P')))))

/-- The pattern `7[pP]-7[aA]`. -/
def sevenP7aRE : RE :=
  .seq (.cls (fun c => c == '7')) (.seq (.cls (fun c => c == 'p' || c == 'P'))
    (.seq (.cls (fun c => c == '-')) (.seq (.cls (fun c => c == '7'))
      (.cls (fun c => c == 'a' || c == 'A')))))

/-- The regex `/PCT\S*:?\s*(.+?)\s*(?:7[aA]-7[pP]|DAY)/`. -/
def pctDayRE : RE :=
  .seq (strRE "PCT") (.seq (.star (.cls (fun c => !jsIsSpace c)))
    (.seq (.opt (.cls (fun c => c == ':'))) (.seq (.star (.cls jsIsSpace))
      (.seq (.group (.plusLazy (.cls jsDotChar))) (.seq (.star (.cls jsIsSpace))
        (.alt sevenA7pRE (strRE "DAY")))))))

/-- The regex `/PCT\S*:?\s*(.+?)\s*(?:7[pP]-7[aA]|NIGHT)/`. -/
def pctNightRE : RE :=
  .seq (strRE "PCT") (.seq (.star (.cls (fun c => !jsIsSpace c)))
    (.seq (.opt (.cls (fun c => c == ':'))) (.seq (.star (.cls jsIsSpace))
      (.seq (.group (.plusLazy (.cls jsDotChar))) (.seq (.star (.cls jsIsSpace))
        (.alt sevenP7aRE (strRE "NIGHT")))))))

/-- The regex `/CHARGE NURSE:\s*([\w\-]+)/i`. -/
def chargeRE : RE :=
  .seq (istrRE "CHARGE NURSE:") (.seq (.star (.cls jsIsSpace))
    (.group (.seq (.cls (fun c => jsIsWordChar c || c == '-'))
      (.star (.cls (fun c => jsIsWordChar c || c == '-'))))))

/-- The regex `/(FLOAT|RESPIRATORY|CPU)/i`. -/
def gridEndRE : RE :=
  .alt (istrRE "FLOAT") (.alt (istrRE "RESPIRATORY") (istrRE "CPU"))

/-! ### String rewriting used on the matched date text -/

/-- Model of `.replace(/(\d{1,2})(st|nd|rd|th)/, '$1')`: replace the first occurrence
by its first capture group. -/
def replOrd (l : List Char) : List Char :=
  match searchFrom ordStripRE false [] none l with
  | some m => m.pre ++ m.cap.getD [] ++ m.rest
  | none => l

/-- Model of `.replace(/,\s+/g, ' ')`: every comma followed by whitespace becomes one
space.  `inRun` is true while consuming the `\s+` of a current match. -/
def gsubCommaWs (inRun : Bool) : List Char → List Char
  | [] => []
  | c :: t =>
    if inRun && jsIsSpace c then gsubCommaWs true t
    else if c == ',' && (match t with | [] => false | d :: _ => jsIsSpace d) then
      ' ' :: gsubCommaWs true t
    else c :: gsubCommaWs false t

/-! ### The `Date` model: `new Date(string)` and `toISOString().split('T')[0]`

The model works in UTC and covers exactly the date formats the parser can
feed to the `Date` constructor: an ISO `YYYY-MM-DD` fragment, a slash date
`M/D/YY(YY)`, and the cleaned long form `[Weekday] Month Day Year`.  Like the
engine's parser it rejects invalid calendar dates (`isNaN(d.getTime())`). -/

structure YMD where
  y : Nat
  m : Nat
  d : Nat
deriving DecidableEq

/-- Gregorian leap year. -/
def isLeap (y : Nat) : Bool := y % 4 == 0 && (y % 100 != 0 || y % 400 == 0)

/-- Days in a month. -/
def daysInMonth (y m : Nat) : Nat :=
  if m == 2 then (if isLeap y then 29 else 28)
  else if m == 4 || m == 6 || m == 9 || m == 11 then 30
  else 31

/-- A calendar date the model accepts (year capped at four digits, as every
year grammar below produces). -/
def validYMD (v : YMD) : Bool :=
  v.y ≤ 9999 && 1 ≤ v.m && v.m ≤ 12 && 1 ≤ v.d && v.d ≤ daysInMonth v.y v.m

/-- Build a date after the validity check (`isNaN` guard of the source). -/
def mkValidYMD (y m d : Nat) : Option YMD :=
  if validYMD ⟨y, m, d⟩ then some ⟨y, m, d⟩ else none

/-- All characters are decimal digits. -/
def allDigits (l : List Char) : Bool := l.all Char.isDigit

/-- A year token: 2 digits get the JavaScript two-digit-year mapping
(`< 50` → 2000s, else 1900s); 3 or 4 digits are literal. -/
def tokYear (t : List Char) : Option Nat :=
  if allDigits t && 2 ≤ t.length && t.length ≤ 4 then
    let v := digitsVal t
    if t.length ≤ 2 then some (if v < 50 then v + 2000 else v + 1900)
    else some v
  else none

/-- A day-of-month token: 1 or 2 digits. -/
def tokDay (t : List Char) : Option Nat :=
  if allDigits t && 1 ≤ t.length && t.length ≤ 2 then some (digitsVal t) else none

/-- Full month names; a token of at least three characters naming a leading
part of one of them (case-insensitively) is that month. -/
def monthNames : List String :=
  ["january", "february", "march", "april", "may", "june", "july",
   "august", "september", "october", "november", "december"]

/-- Full weekday names, recognized the same way. -/
def weekdayNames : List String :=
  ["monday", "tuesday", "wednesday", "thursday", "friday", "saturday", "sunday"]

/-- A month token: a 1-2 digit number, or a leading part (≥ 3 chars) of a
month name. -/
def tokMonth (t : List Char) : Option Nat :=
  if allDigits t && 1 ≤ t.length && t.length ≤ 2 then some (digitsVal t)
  else
    match monthNames.findIdx?
        (fun nm => 3 ≤ t.length && leadsList (t.map Char.toLower) nm.toList) with
    | some i => some (i + 1)
    | none => none

/-- A weekday token. -/
def isWeekdayTok (t : List Char) : Bool :=
  3 ≤ t.length &&
    weekdayNames.any (fun nm => leadsList (t.map Char.toLower) nm.toList)

/-- The form `Month Day Year` (after validity check). -/
def parseMDY (mt dt yt : List Char) : Option YMD :=
  match tokMonth mt, tokDay dt, tokYear yt with
  | some m, some d, some y => mkValidYMD y m d
  | _, _, _ => none

/-- The word form `[Weekday] Month Day Year`, tokens separated by whitespace. -/
def wordDateParse (l : List Char) : Option YMD :=
  match (List.splitOnP jsIsSpace l).filter (fun t => !t.isEmpty) with
  | [a, b, c] => parseMDY a b c
  | [w, a, b, c] => if isWeekdayTok w then parseMDY a b c else none
  | _ => none

/-- The ISO form `YYYY-MM-DD`. -/
def isoDateParse (l : List Char) : Option YMD :=
  match l with
  | [y1, y2, y3, y4, h1, m1, m2, h2, d1, d2] =>
    if allDigits [y1, y2, y3, y4, m1, m2, d1, d2] && h1 == '-' && h2 == '-' then
      mkValidYMD (digitsVal [y1, y2, y3, y4]) (digitsVal [m1, m2]) (digitsVal [d1, d2])
    else none
  | _ => none

/-- The slash form `M/D/Y`. -/
def slashDateParse (l : List Char) : Option YMD :=
  match List.splitOnP (fun c => c == '/') l with
  | [mt, dt, yt] =>
    if allDigits mt && 1 ≤ mt.length && mt.length ≤ 2 &&
        allDigits dt && 1 ≤ dt.length && dt.length ≤ 2 then
      match tokYear yt with
      | some y => mkValidYMD y (digitsVal mt) (digitsVal dt)
      | none => none
    else none
  | _ => none

/-- Model of `new Date(string)` over the formats above. -/
def jsDateParse (l : List Char) : Option YMD :=
  match isoDateParse l with
  | some v => some v
  | none =>
    match wordDateParse l with
    | some v => some v
    | none => slashDateParse l

/-- Left-pad with zeros to width `k`. -/
def padZeros (k : Nat) (l : List Char) : List Char :=
  List.replicate (k - l.length) '0' ++ l

/-- Model of `d.toISOString().split('T')[0]`: the UTC date as `YYYY-MM-DD`. -/
def fmtYMD (v : YMD) : String :=
  String.mk (padZeros 4 (natDigits v.y) ++
    '-' :: (padZeros 2 (natDigits v.m) ++ '-' :: padZeros 2 (natDigits v.d)))

/-! ### `parseDate` -/

/-- The long-form branch of `parseDate`: regex search, ordinal stripping,
comma normalization, `new Date`, `toISOString` — `none` when the regex does
not match or the cleaned text is not a valid date. -/
def longFormDate (input : String) : Option String :=
  (jsSearch true dateLongRE input).bind fun m =>
    (jsDateParse (gsubCommaWs false (replOrd m.matched))).map fmtYMD

/-- The fallback branch: first ISO match, else first slash match, fed to
`new Date`. -/
def fallbackDate (input : String) : Option String :=
  (match jsSearch false isoRE input with
   | some m => some m
   | none => jsSearch false slashRE input).bind fun m =>
    (jsDateParse m.matched).map fmtYMD

/-- The function `parseDate` of the source: long form, else ISO/slash fallback, else the
current date (`now`, the explicit clock of the embedding). -/
def parseDate (input : String) (now : YMD) : String :=
  match longFormDate input with
  | some s => s
  | none =>
    match fallbackDate input with
    | some s => s
    | none => fmtYMD now

/-! ### The document tree

Per the input boundary of the system, the converter hands the parser a tree of
tables, rows and cells, where every node exposes its browser-rendered text
(`innerText` for rows and cells, `textContent` for tables).  The rendered
texts are part of the input tree, as the DOM supplies them. -/

structure Cell where
  innerText : String
deriving DecidableEq, Inhabited

structure TableRow where
  innerText : String
  cells : List Cell
deriving DecidableEq, Inhabited

structure Table where
  textContent : String
  rows : List TableRow
deriving DecidableEq, Inhabited

structure HtmlDoc where
  tables : List Table
  bodyText : String
deriving DecidableEq, Inhabited

/-- JavaScript array indexing `cells[i]` with a possibly negative index
(`undefined` out of range). -/
def cellAt (cells : List Cell) (i : Int) : Option Cell :=
  if i < 0 then none else cells[i.toNat]?

/-- Model of `getCellText`: trimmed rendered text, empty for an absent cell. -/
def getCellText (cell : Option Cell) : String :=
  match cell with
  | some c => jsTrim c.innerText
  | none => ""

/-- Model of `extractListFromCell`: split on newlines, trim, drop blank lines. -/
def extractListFromCell (cell : Option Cell) : List String :=
  ((List.splitOnP (fun c => c == '\n') (getCellText cell).toList).map
      (fun l => jsTrim (String.mk l))).filter (fun s => s ≠ "")

/-! ### Header mapping and the assignment grid -/

/-- Model of `autoMapHeaders` for one key: index of the first header cell whose text,
with whitespace removed and lowercased, contains the key, lowercased and with
whitespace removed; `-1` when none does.  (The source builds the map for all
keys in one loop; each entry is exactly this `findIndex`.) -/
def autoMapKey (headerCells : List String) (key : String) : Int :=
  match headerCells.findIdx?
      (fun h => strIncludes (jsToLower (stripWs h)) (stripWs (jsToLower key))) with
  | some i => (i : Int)
  | none => -1

/-- One room's record. -/
structure AssignmentRow where
  room : String
  prec : String
  patient : String
  mrn : String
  status : String
  rnDay : String
  extDay : String
  rnNight : String
  extNight : String
deriving DecidableEq, Inhabited

/-- The initial slot for a room: the room number as its decimal string, every
other field empty. -/
def defaultRow (room : Nat) : AssignmentRow :=
  { room := natRepr room, prec := "", patient := "", mrn := "", status := ""
    rnDay := "", extDay := "", rnNight := "", extNight := "" }

/-- The grid-header test: a row whose (truthy, hence nonempty) rendered text
contains both `ROOM` and `PATIENT` after uppercasing. -/
def headerPred (r : TableRow) : Bool :=
  !(r.innerText == "") && strIncludes (jsToUpper r.innerText) "ROOM" &&
    strIncludes (jsToUpper r.innerText) "PATIENT"

/-- The record a body row builds, reading each field through the column map
(an unmapped or out-of-range column reads as the empty string). -/
def builtRow (colOf : String → Int) (cells : List Cell) (roomStr : String) :
    AssignmentRow :=
  { room := roomStr
    prec := getCellText (cellAt cells (colOf "prec"))
    patient := getCellText (cellAt cells (colOf "patient"))
    mrn := getCellText (cellAt cells (colOf "mrn"))
    status := getCellText (cellAt cells (colOf "status"))
    rnDay := getCellText (cellAt cells (colOf "rnday"))
    extDay := getCellText (cellAt cells (colOf "extday"))
    rnNight := getCellText (cellAt cells (colOf "rnnight"))
    extNight := getCellText (cellAt cells (colOf "extnight")) }

/-- The room string a body row presents in its room column. -/
def roomTextOf (colOf : String → Int) (row : TableRow) : String :=
  getCellText (cellAt row.cells (colOf "room"))

/-- One iteration of the assignment-filling loop: parse the room column; when
it is a number within `[startRoom, endRoom]`, overwrite that room's slot with
the row's record; otherwise leave the slots unchanged. -/
def placeRow (startRoom endRoom : Nat) (colOf : String → Int)
    (asg : List AssignmentRow) (row : TableRow) : List AssignmentRow :=
  match jsParseInt (roomTextOf colOf row) with
  | none => asg
  | some room =>
    if (startRoom : Int) ≤ room && room ≤ (endRoom : Int) then
      asg.set (room - (startRoom : Int)).toNat
        (builtRow colOf row.cells (roomTextOf colOf row))
    else asg

/-- First row index strictly after `hIdx` whose text passes `p`
(the `findIndex((r, i) => i > headerRowIdx && ...)` of the source). -/
def findIdxOver (rows : List TableRow) (hIdx : Nat) (p : TableRow → Bool) :
    Option Nat :=
  (List.range rows.length).find? fun i =>
    decide (hIdx < i) && p (rows.getD i default)

/-- The bottom-section test `/(FLOAT|RESPIRATORY|CPU)/i.test(innerText)`. -/
def bottomMarkerTest (r : TableRow) : Bool :=
  jsTest false gridEndRE r.innerText

/-- State of the bottom-section loop: day floats, night floats, respiratory. -/
structure BottomState where
  floatsDay : List String
  floatsNight : List String
  respiratory : List String
deriving DecidableEq, Inhabited

/-- One iteration of the bottom-section loop. -/
def bottomStep (st : BottomState) (row : TableRow) : BottomState :=
  let txt := jsToUpper row.innerText
  let st1 :=
    if strIncludes txt "FLOATS" || strIncludes txt "FLOAT" then
      let d := if strIncludes txt "7A-7P" then extractListFromCell (cellAt row.cells 0)
               else st.floatsDay
      let n := if strIncludes txt "7P-7A" then extractListFromCell (cellAt row.cells 0)
               else st.floatsNight
      { st with floatsDay := d, floatsNight := n }
    else st
  if strIncludes txt "RESPIRATORY" then
    { st1 with respiratory := extractListFromCell (cellAt row.cells 0) }
  else st1

/-- Result of `parseAssignmentsAndBottomSection`. -/
structure GridResult where
  assignments : List AssignmentRow
  floatsDay : List String
  floatsNight : List String
  respiratory : List String
deriving DecidableEq, Inhabited

/-- The fixed slot sequence the grid starts from (`Array.from({length})`
clamps a negative length to zero, hence the `Int` subtraction). -/
def initAssignments (startRoom endRoom : Nat) : List AssignmentRow :=
  (List.range ((endRoom : Int) - (startRoom : Int) + 1).toNat).map
    fun i => defaultRow (startRoom + i)

/-- The cell texts of the header row at `headerRowIdx`
(`querySelectorAll('th,td')` mapped through `getCellText`). -/
def headerCellsAt (rows : List TableRow) (headerRowIdx : Nat) : List String :=
  (rows.getD headerRowIdx default).cells.map fun c => getCellText (some c)

/-- The column map built from that header row. -/
def colOfAt (rows : List TableRow) (headerRowIdx : Nat) : String → Int :=
  fun k => autoMapKey (headerCellsAt rows headerRowIdx) k

/-- Where the grid body ends: the first row after the header matching the
bottom-section marker, else the end of the row list. -/
def gridEndIdxAt (rows : List TableRow) (headerRowIdx : Nat) : Nat :=
  match findIdxOver rows headerRowIdx bottomMarkerTest with
  | some j => j
  | none => rows.length

/-- The body rows of the grid: indices `headerRowIdx + 1 .. gridEndIdx - 1`
(the `for` loop of the source walks exactly this slice). -/
def bodyRowsAt (rows : List TableRow) (headerRowIdx : Nat) : List TableRow :=
  (rows.drop (headerRowIdx + 1)).take (gridEndIdxAt rows headerRowIdx - (headerRowIdx + 1))

/-- The part of `parseAssignmentsAndBottomSection` that runs once the grid
header row at index `headerRowIdx` is found. -/
def gridWithHeader (rows : List TableRow) (headerRowIdx : Nat)
    (startRoom endRoom : Nat) : GridResult :=
  let assignments :=
    (bodyRowsAt rows headerRowIdx).foldl
      (placeRow startRoom endRoom (colOfAt rows headerRowIdx))
      (initAssignments startRoom endRoom)
  let bot := (rows.drop (gridEndIdxAt rows headerRowIdx)).foldl bottomStep ⟨[], [], []⟩
  ⟨assignments, bot.floatsDay, bot.floatsNight, bot.respiratory⟩

/-- Model of `parseAssignmentsAndBottomSection(rows, startRoom = 501, endRoom = 532)`;
the one `throw` of the parser becomes the `Except.error`. -/
def parseAssignmentsAndBottomSection (rows : List TableRow)
    (startRoom : Nat := 501) (endRoom : Nat := 532) : Except String GridResult :=
  match rows.findIdx? headerPred with
  | none => .error "Assignment table header not found."
  | some headerRowIdx => .ok (gridWithHeader rows headerRowIdx startRoom endRoom)

/-! ### The info table -/

/-- What `parseInfoTable` accumulates (`Partial<Roster>` of the source):
`date`/`pctsDay`/`pctsNight` stay `undefined` until assigned, the charge-nurse
fields start as empty strings. -/
structure InfoResult where
  date : Option String
  pctsDay : Option String
  pctsNight : Option String
  chargeDay : String
  chargeNight : String
deriving DecidableEq, Inhabited

/-- One row of the info-table loop. -/
def infoStep (now : YMD) (st : InfoResult) (row : TableRow) : InfoResult :=
  let txt := jsToUpper row.innerText
  let st :=
    if st.date.isNone && jsTest true weekdayCsRE txt then
      { st with date := some (parseDate txt now) }
    else st
  let st :=
    if strIncludes txt "PCT" then
      let st :=
        if strIncludes txt "7A-7P" || strIncludes txt "DAY" then
          match jsSearch false pctDayRE row.innerText with
          | some m => { st with pctsDay := some (jsTrim (String.mk (m.cap.getD []))) }
          | none => st
        else st
      if strIncludes txt "7P-7A" || strIncludes txt "NIGHT" then
        match jsSearch false pctNightRE row.innerText with
        | some m => { st with pctsNight := some (jsTrim (String.mk (m.cap.getD []))) }
        | none => st
      else st
    else st
  if strIncludes txt "CHARGE NURSE" then
    let st :=
      if strIncludes txt "7A-7P" || strIncludes txt "DAY" then
        match jsSearch false chargeRE row.innerText with
        | some m => { st with chargeDay := jsTrim (String.mk (m.cap.getD [])) }
        | none => st
      else st
    if strIncludes txt "7P-7A" || strIncludes txt "NIGHT" then
      match jsSearch false chargeRE row.innerText with
      | some m => { st with chargeNight := jsTrim (String.mk (m.cap.getD [])) }
      | none => st
    else st
  else st

/-- Model of `parseInfoTable(table)`. -/
def parseInfoTable (table : Table) (now : YMD) : InfoResult :=
  table.rows.foldl (infoStep now) ⟨none, none, none, "", ""⟩

/-! ### The entry point -/

/-- The full roster. -/
structure Roster where
  date : String
  pctsDay : String
  pctsNight : String
  chargeDay : String
  chargeNight : String
  assignments : List AssignmentRow
  floatsDay : List String
  floatsNight : List String
  respiratory : List String
deriving DecidableEq, Inhabited

/-- The info-table test: combined text contains `CHARGE NURSE` (uppercased). -/
def infoTablePred (t : Table) : Bool :=
  strIncludes (jsToUpper t.textContent) "CHARGE NURSE"

/-- Index of the table `Array.from(tables).find(...) || tables[0]` picks:
first table whose text contains the marker, else the first table; `none` only
when the document has no tables (the JavaScript value is then `undefined`).
Identity, not structural equality, singles the table out in the source
(`t !== infoTable`), which the index models exactly. -/
def infoTableIdx (doc : HtmlDoc) : Option Nat :=
  match doc.tables.findIdx? infoTablePred with
  | some i => some i
  | none => if doc.tables.isEmpty then none else some 0

/-- The concatenated rows of every table other than the info table. -/
def contentRowsOf (doc : HtmlDoc) : List TableRow :=
  ((List.range doc.tables.length).filter
      (fun i => some i ≠ infoTableIdx doc)).flatMap
    fun i => (doc.tables.getD i default).rows

/-- JavaScript `a || b` for strings (empty string is falsy). -/
def jsOrStr (a b : String) : String := if a == "" then b else a

/-- Model of `parseRosterFromHtml`.  Statements execute in source order: the grid parse
can throw; afterwards `parseInfoTable(infoTable)` would throw a `TypeError`
when the document had no tables at all (`infoTable` is `undefined`), modelled
by the second error case. -/
def parseRosterFromHtml (doc : HtmlDoc) (now : YMD) : Except String Roster := do
  let dateFromBody := parseDate doc.bodyText now
  let grid ← parseAssignmentsAndBottomSection (contentRowsOf doc) 501 532
  let infoTable ←
    match infoTableIdx doc with
    | some k => pure (doc.tables.getD k default)
    | none => .error "TypeError: Cannot read properties of undefined"
  let info := parseInfoTable infoTable now
  let finalDate := jsOrStr (info.date.getD "") (jsOrStr dateFromBody (fmtYMD now))
  return { date := finalDate
           pctsDay := info.pctsDay.getD ""
           pctsNight := info.pctsNight.getD ""
           chargeDay := info.chargeDay
           chargeNight := info.chargeNight
           assignments := grid.assignments
           floatsDay := grid.floatsDay
           floatsNight := grid.floatsNight
           respiratory := grid.respiratory }

/-! ### Spec-side predicates and concrete fixtures used by the statements -/

/-- Does grid row `row` claim room number `n` in its room column? -/
def rowClaims (colOf : String → Int) (row : TableRow) (n : Nat) : Bool :=
  jsParseInt (roomTextOf colOf row) == some ((n : Nat) : Int)

/-- Canonical `YYYY-MM-DD` shape: ten characters, digits with dashes at
positions 4 and 7. -/
def isCanonicalDate (s : String) : Bool :=
  match s.toList with
  | [y1, y2, y3, y4, h1, m1, m2, h2, d1, d2] =>
    y1.isDigit && y2.isDigit && y3.isDigit && y4.isDigit && h1 == '-' &&
    m1.isDigit && m2.isDigit && h2 == '-' && d1.isDigit && d2.isDigit
  | _ => false

/-- The spec's normalized containment for header mapping: the header cell
with whitespace removed and lowercased must contain the key lowercased and
with whitespace removed (exactly the predicate `autoMapHeaders` evaluates). -/
def normIncl (h key : String) : Bool :=
  strIncludes (jsToLower (stripWs h)) (stripWs (jsToLower key))

/-- A minimal grid header row (contains both `ROOM` and `PATIENT`). -/
def hdrRow : TableRow := ⟨"ROOM PATIENT", [⟨"ROOM"⟩, ⟨"PATIENT"⟩]⟩

/-- The grid result of parsing the one-row table `[hdrRow]`. -/
def res1 : GridResult := gridWithHeader [hdrRow] 0 501 532

/-- The column map of a `ROOM | PATIENT` header. -/
def colOf0 : String → Int := fun k => autoMapKey ["ROOM", "PATIENT"] k

/-- Two body rows both claiming room 505, with different patient text. -/
def dupRowA : TableRow := ⟨"505 first", [⟨"505"⟩, ⟨"first"⟩]⟩

/-- See `dupRowA`. -/
def dupRowB : TableRow := ⟨"505 second", [⟨"505"⟩, ⟨"second"⟩]⟩

/-- An info table whose row carries a `#`-prefixed charge-nurse identifier
together with the day-shift token. -/
def infoTblSharp : Table :=
  ⟨"CHARGE NURSE: #7501 7A-7P", [⟨"CHARGE NURSE: #7501 7A-7P", [⟨"CHARGE NURSE: #7501 7A-7P"⟩]⟩]⟩

/-- The same info table without the `#`. -/
def infoTblPlain : Table :=
  ⟨"CHARGE NURSE: 7501 7A-7P", [⟨"CHARGE NURSE: 7501 7A-7P", [⟨"CHARGE NURSE: 7501 7A-7P"⟩]⟩]⟩

/-- A content table: `ROOM | PATIENT` header plus a room-512 body row. -/
def contentTbl : Table := ⟨"grid", [hdrRow, ⟨"512 J. Doe", [⟨"512"⟩, ⟨"J. Doe"⟩]⟩]⟩

/-- A two-table document: metadata table plus assignment grid. -/
def docSample : HtmlDoc := ⟨[infoTblSharp, contentTbl], "no date in body"⟩

/-- A one-table document with neither metadata marker nor grid header. -/
def docNoHeader : HtmlDoc := ⟨[⟨"plain", [⟨"hello", [⟨"hello"⟩]⟩]⟩], "body"⟩

/-- A fixed clock for the concrete statements. -/
def clock0 : YMD := ⟨2025, 10, 11⟩

/-! ### Helper lemmas: `findIdx?` as first-match search -/

theorem findIdx?_cons_zero (p : α → Bool) (x : α) (xs : List α) :
    (x :: xs).findIdx? p = if p x then some 0 else (xs.findIdx? p).map (· + 1) := by
  rw [List.findIdx?_cons, List.findIdx?_succ]

theorem findIdx?_iff_first [Inhabited α] (p : α → Bool) :
    ∀ (l : List α) (k : Nat),
      (l.findIdx? p = some k ↔
        k < l.length ∧ p (l.getD k default) = true ∧
          ∀ j, j < k → p (l.getD j default) = false)
  | [], k => by simp [List.findIdx?_nil]
  | x :: xs, k => by
    rw [findIdx?_cons_zero]
    cases hx : p x with
    | true =>
      simp only [hx, if_true]
      constructor
      · intro h
        have hk : k = 0 := by
          cases h; rfl
        subst hk
        exact ⟨by simp, by simpa using hx, by omega⟩
      · intro ⟨_, hpk, hlt⟩
        cases k with
        | zero => rfl
        | succ k' =>
          have := hlt 0 (by omega)
          simp [hx] at this
    | false =>
      simp only [hx, Bool.false_eq_true, if_false]
      constructor
      · intro h
        obtain ⟨k', hk', rfl⟩ : ∃ k', xs.findIdx? p = some k' ∧ k = k' + 1 := by
          cases hfd : xs.findIdx? p with
          | none => rw [hfd] at h; simp at h
          | some v => rw [hfd] at h; simp at h; exact ⟨v, rfl, h.symm⟩
        obtain ⟨h1, h2, h3⟩ := (findIdx?_iff_first p xs k').mp hk'
        refine ⟨by simpa using h1, by simpa using h2, ?_⟩
        intro j hj
        cases j with
        | zero => simpa using hx
        | succ j' => simpa using h3 j' (by omega)
      · intro ⟨h1, h2, h3⟩
        cases k with
        | zero => simp at h2; rw [h2] at hx; cases hx
        | succ k' =>
          have : xs.findIdx? p = some k' := by
            refine (findIdx?_iff_first p xs k').mpr ⟨by simpa using h1, by simpa using h2, ?_⟩
            intro j hj
            simpa using h3 (j + 1) (by omega)
          simp [this]

theorem findIdx?_none_of_all [Inhabited α] (p : α → Bool) (l : List α)
    (h : ∀ a ∈ l, p a = false) : l.findIdx? p = none := by
  rw [List.findIdx?_eq_none_iff]
  exact h

/-! ### Helper lemmas: decimal numerals -/

theorem natDigitsGo_fuel_irrel : ∀ (n f1 f2 : Nat), n < f1 → n < f2 →
    natDigitsGo f1 n = natDigitsGo f2 n
  | n, f1 + 1, f2 + 1, h1, h2 => by
    rw [natDigitsGo, natDigitsGo]
    split
    · rfl
    · have hd : n / 10 < n := Nat.div_lt_self (by omega) (by omega)
      rw [natDigitsGo_fuel_irrel (n / 10) f1 f2 (by omega) (by omega)]

theorem natDigits_unfold (n : Nat) :
    natDigits n = if n < 10 then [digitChar n]
      else natDigits (n / 10) ++ [digitChar (n % 10)] := by
  show natDigitsGo (n + 1) n = _
  rw [natDigitsGo]
  split
  · rfl
  · have hd : n / 10 < n := Nat.div_lt_self (by omega) (by omega)
    rw [natDigitsGo_fuel_irrel (n / 10) n (n / 10 + 1) (by omega) (by omega)]
    rfl

theorem digitChar_isDigit {k : Nat} (h : k < 10) : (digitChar k).isDigit = true := by
  interval_cases k <;> decide

theorem digitVal_digitChar {k : Nat} (h : k < 10) : digitVal (digitChar k) = k := by
  interval_cases k <;> decide

theorem digitChar_not_space {k : Nat} (h : k < 10) : jsIsSpace (digitChar k) = false := by
  interval_cases k <;> decide

theorem digitChar_not_sign {k : Nat} (h : k < 10) :
    digitChar k ≠ '-' ∧ digitChar k ≠ '+' := by
  interval_cases k <;> exact ⟨by decide, by decide⟩

theorem natDigits_ne_nil (n : Nat) : natDigits n ≠ [] := by
  rw [natDigits_unfold]
  split <;> simp

theorem mem_natDigits : ∀ (n : Nat), ∀ c ∈ natDigits n, ∃ k, k < 10 ∧ c = digitChar k
  | n => by
    rw [natDigits_unfold]
    split
    · intro c hc
      simp at hc
      exact ⟨n, by omega, hc⟩
    · intro c hc
      rw [List.mem_append] at hc
      cases hc with
      | inl h =>
        have : n / 10 < n := Nat.div_lt_self (by omega) (by omega)
        exact mem_natDigits (n / 10) c h
      | inr h =>
        simp at h
        exact ⟨n % 10, by omega, h⟩

theorem digitsVal_append_singleton (l : List Char) (c : Char) :
    digitsVal (l ++ [c]) = 10 * digitsVal l + digitVal c := by
  simp [digitsVal, List.foldl_append]

theorem digitsVal_natDigits : ∀ (n : Nat), digitsVal (natDigits n) = n
  | n => by
    rw [natDigits_unfold]
    split
    · simp [digitsVal, digitVal_digitChar ‹n < 10›]
    · have hd : n / 10 < n := Nat.div_lt_self (by omega) (by omega)
      rw [digitsVal_append_singleton, digitsVal_natDigits (n / 10),
        digitVal_digitChar (Nat.mod_lt n (by omega))]
      omega

theorem natDigits_length_le : ∀ (n k : Nat), 0 < k → n < 10 ^ k →
    (natDigits n).length ≤ k
  | n, k, hk, hn => by
    rw [natDigits_unfold]
    split
    · simpa using hk
    · have h10 : 10 ≤ n := by omega
      have hk2 : 2 ≤ k := by
        by_contra hc
        have : k = 1 := by omega
        subst this
        simp at hn
        omega
      have hdiv : n / 10 < 10 ^ (k - 1) := by
        rw [Nat.div_lt_iff_lt_mul (by omega)]
        have : 10 ^ (k - 1) * 10 = 10 ^ k := by
          rw [← Nat.pow_succ]
          congr 1
          omega
        omega
      have hlt : n / 10 < n := Nat.div_lt_self (by omega) (by omega)
      have := natDigits_length_le (n / 10) (k - 1) (by omega) hdiv
      simp only [List.length_append, List.length_cons, List.length_nil]
      omega

theorem takeWhile_eq_self_of_all (p : α → Bool) (l : List α)
    (h : ∀ a ∈ l, p a = true) : l.takeWhile p = l := by
  induction l with
  | nil => rfl
  | cons c t ih =>
    rw [List.takeWhile_cons, h c (by simp)]
    simp [ih fun a ha => h a (by simp [ha])]

/-- The function `parseInt` inverts `toString` on every natural number (what makes the
default rows of the grid carry their own slot number). -/
theorem jsParseInt_natRepr (n : Nat) : jsParseInt (natRepr n) = some (n : Int) := by
  obtain ⟨c, t, hct⟩ := List.exists_cons_of_ne_nil (natDigits_ne_nil n)
  have hmem : ∀ x ∈ natDigits n, x.isDigit = true := by
    intro x hx
    obtain ⟨k, hk, rfl⟩ := mem_natDigits n x hx
    exact digitChar_isDigit hk
  obtain ⟨kc, hkc, hckc⟩ := mem_natDigits n c (by rw [hct]; simp)
  have htoList : (natRepr n).toList = natDigits n := rfl
  unfold jsParseInt
  rw [htoList, hct, List.dropWhile_cons]
  rw [show jsIsSpace c = false by rw [hckc]; exact digitChar_not_space hkc]
  simp only [Bool.false_eq_true, if_false]
  have hsign : (match c :: t with
      | '-' :: t => ((-1 : Int), t)
      | '+' :: t => ((1 : Int), t)
      | _ => ((1 : Int), c :: t)) = ((1 : Int), c :: t) := by
    have h1 : c ≠ '-' := by rw [hckc]; exact (digitChar_not_sign hkc).1
    have h2 : c ≠ '+' := by rw [hckc]; exact (digitChar_not_sign hkc).2
    rcases hc : c
    split
    · rename_i heq; rw [← hc] at heq; cases heq; exact absurd rfl h1
    · rename_i heq; rw [← hc] at heq; cases heq; exact absurd rfl h2
    · rw [← hc]
  rw [hsign]
  simp only
  rw [show (c :: t) = natDigits n from hct.symm,
    takeWhile_eq_self_of_all Char.isDigit (natDigits n) hmem]
  have hne : (natDigits n).isEmpty = false := by
    simp [List.isEmpty_iff, natDigits_ne_nil n]
  rw [hne]
  simp only [Bool.false_eq_true, if_false, digitsVal_natDigits, one_mul]

/-! ### Helper lemmas: the assignment-filling fold -/

theorem placeRow_length (lo hi : Nat) (colOf : String → Int)
    (asg : List AssignmentRow) (row : TableRow) :
    (placeRow lo hi colOf asg row).length = asg.length := by
  unfold placeRow
  cases jsParseInt (roomTextOf colOf row) with
  | none => rfl
  | some room =>
    simp only
    split
    · exact List.length_set ..
    · rfl

theorem foldl_placeRow_length (lo hi : Nat) (colOf : String → Int) :
    ∀ (rows : List TableRow) (init : List AssignmentRow),
      (rows.foldl (placeRow lo hi colOf) init).length = init.length
  | [], _ => rfl
  | r :: rs, init => by
    rw [List.foldl_cons, foldl_placeRow_length lo hi colOf rs (placeRow lo hi colOf init r),
      placeRow_length]

theorem placeRow_getD_of_not_claimed (lo hi : Nat) (colOf : String → Int)
    (asg : List AssignmentRow) (row : TableRow) (i : Nat)
    (h : rowClaims colOf row (lo + i) = false) :
    (placeRow lo hi colOf asg row).getD i default = asg.getD i default := by
  unfold placeRow
  cases hp : jsParseInt (roomTextOf colOf row) with
  | none => rfl
  | some room =>
    simp only
    split
    · rename_i hrange
      have hlo : (lo : Int) ≤ room := by
        rcases Bool.and_eq_true .. |>.mp hrange with ⟨h1, _⟩
        exact of_decide_eq_true h1
      have hne : room ≠ ((lo + i : Nat) : Int) := by
        intro he
        rw [rowClaims, hp, he] at h
        simp at h
      have hidx : (room - (lo : Int)).toNat ≠ i := by omega
      have hidx' : room.toNat - lo ≠ i := by omega
      rw [List.getD_eq_getElem?_getD, List.getD_eq_getElem?_getD, List.getElem?_set]
      simp [hidx, hidx']
    · rfl

theorem foldl_placeRow_getD_of_not_claimed (lo hi : Nat) (colOf : String → Int) :
    ∀ (rows : List TableRow) (init : List AssignmentRow) (i : Nat),
      (∀ row ∈ rows, rowClaims colOf row (lo + i) = false) →
      (rows.foldl (placeRow lo hi colOf) init).getD i default = init.getD i default
  | [], _, _, _ => rfl
  | r :: rs, init, i, h => by
    rw [List.foldl_cons,
      foldl_placeRow_getD_of_not_claimed lo hi colOf rs (placeRow lo hi colOf init r) i
        (fun row hrow => h row (by simp [hrow])),
      placeRow_getD_of_not_claimed lo hi colOf init r i (h r (by simp))]

/-- After the fold, the slot of a room whose last claimant is the row at
index `j` holds exactly that row's record. -/
theorem foldl_placeRow_last_writer (lo hi : Nat) (colOf : String → Int) :
    ∀ (rows : List TableRow) (init : List AssignmentRow) (j room : Nat),
      j < rows.length →
      rowClaims colOf (rows.getD j default) room = true →
      lo ≤ room → room ≤ hi → room - lo < init.length →
      (∀ k, j < k → k < rows.length → rowClaims colOf (rows.getD k default) room = false) →
      (rows.foldl (placeRow lo hi colOf) init).getD (room - lo) default =
        builtRow colOf (rows.getD j default).cells
          (roomTextOf colOf (rows.getD j default))
  | [], _, j, _, hj, _, _, _, _, _ => absurd hj (by simp)
  | r :: rs, init, 0, room, hj, hcl, hlo, hhi, hlen, hlast => by
    simp only [List.getD_cons_zero] at hcl
    have hp : jsParseInt (roomTextOf colOf r) = some ((room : Nat) : Int) := by
      simpa [rowClaims] using hcl
    rw [List.foldl_cons]
    have hplace : placeRow lo hi colOf init r =
        init.set (room - lo) (builtRow colOf r.cells (roomTextOf colOf r)) := by
      unfold placeRow
      rw [hp]
      simp only
      have hcond : ((lo : Int) ≤ ((room : Nat) : Int) && ((room : Nat) : Int) ≤ (hi : Int)) = true := by
        simp only [Bool.and_eq_true, decide_eq_true_eq]
        omega
      rw [if_pos hcond]
      congr 1
      omega
    rw [hplace,
      foldl_placeRow_getD_of_not_claimed lo hi colOf rs _ (room - lo)
        (by
          intro row hrow
          obtain ⟨k, hk, rfl⟩ := List.mem_iff_getElem.mp hrow
          have := hlast (k + 1) (by omega) (by simpa using Nat.succ_lt_succ hk)
          have hget : (r :: rs).getD (k + 1) default = rs[k] := by
            rw [List.getD_cons_succ, List.getD_eq_getElem?_getD, List.getElem?_eq_getElem hk]
            rfl
          rw [hget] at this
          have hre : lo + (room - lo) = room := by omega
          rw [hre]
          exact this)]
    rw [List.getD_eq_getElem?_getD, List.getElem?_set]
    simp [hlen]
  | r :: rs, init, j + 1, room, hj, hcl, hlo, hhi, hlen, hlast => by
    rw [List.foldl_cons]
    have := foldl_placeRow_last_writer lo hi colOf rs (placeRow lo hi colOf init r) j room
      (by simpa using Nat.lt_of_succ_lt_succ hj)
      (by simpa [List.getD_cons_succ] using hcl)
      hlo hhi (by rw [placeRow_length]; exact hlen)
      (fun k hk1 hk2 => by
        have := hlast (k + 1) (by omega) (by simpa using Nat.succ_lt_succ hk2)
        simpa [List.getD_cons_succ] using this)
    simpa [List.getD_cons_succ] using this

/-- The fold preserves "slot `i` parses to room `lo + i`". -/
theorem foldl_placeRow_parse_invariant (lo hi : Nat) (colOf : String → Int) :
    ∀ (rows : List TableRow) (init : List AssignmentRow),
      (∀ i, i < init.length →
        jsParseInt ((init.getD i default).room) = some ((lo + i : Nat) : Int)) →
      ∀ i, i < init.length →
        jsParseInt (((rows.foldl (placeRow lo hi colOf) init).getD i default).room) =
          some ((lo + i : Nat) : Int)
  | [], _, hinit, i, hi' => hinit i hi'
  | r :: rs, init, hinit, i, hi' => by
    rw [List.foldl_cons]
    refine foldl_placeRow_parse_invariant lo hi colOf rs (placeRow lo hi colOf init r)
      ?_ i (by rw [placeRow_length]; exact hi')
    intro j hj
    rw [placeRow_length] at hj
    unfold placeRow
    cases hp : jsParseInt (roomTextOf colOf r) with
    | none => exact hinit j hj
    | some room =>
      simp only
      split
      · rename_i hrange
        obtain ⟨h1, h2⟩ := Bool.and_eq_true .. |>.mp hrange
        have hlo : (lo : Int) ≤ room := of_decide_eq_true h1
        have hhi : room ≤ (hi : Int) := of_decide_eq_true h2
        by_cases hidx : (room - (lo : Int)).toNat = j
        · rw [List.getD_eq_getElem?_getD, List.getElem?_set]
          simp only [hidx, if_pos, hj, if_true]
          simp only [Option.getD_some]
          rw [show (builtRow colOf r.cells (roomTextOf colOf r)).room =
            roomTextOf colOf r from rfl, hp]
          congr 2
          omega
        · rw [List.getD_eq_getElem?_getD, List.getElem?_set]
          simp only [hidx, if_neg, if_false]
          rw [← List.getD_eq_getElem?_getD]
          exact hinit j hj
      · exact hinit j hj

theorem initAssignments_length (lo hi : Nat) (h : lo ≤ hi) :
    (initAssignments lo hi).length = hi - lo + 1 := by
  unfold initAssignments
  rw [List.length_map, List.length_range]
  omega

theorem initAssignments_getD (lo hi i : Nat) (h : i < ((hi : Int) - (lo : Int) + 1).toNat) :
    (initAssignments lo hi).getD i default = defaultRow (lo + i) := by
  unfold initAssignments
  rw [List.getD_eq_getElem?_getD,
    List.getElem?_eq_getElem (by rw [List.length_map, List.length_range]; exact h)]
  simp

/-! ### Helper lemmas: the date model always yields canonical dates -/

theorem daysInMonth_le_31 (y m : Nat) : daysInMonth y m ≤ 31 := by
  unfold daysInMonth
  split
  · split <;> omega
  · split <;> omega

theorem mkValidYMD_valid {y m d : Nat} {v : YMD} (h : mkValidYMD y m d = some v) :
    validYMD v = true := by
  unfold mkValidYMD at h
  split at h
  · cases h; assumption
  · cases h

theorem parseMDY_valid {mt dt yt : List Char} {v : YMD}
    (h : parseMDY mt dt yt = some v) : validYMD v = true := by
  unfold parseMDY at h
  split at h
  · exact mkValidYMD_valid h
  · cases h

theorem isoDateParse_valid {l : List Char} {v : YMD}
    (h : isoDateParse l = some v) : validYMD v = true := by
  unfold isoDateParse at h
  split at h
  · split at h
    · exact mkValidYMD_valid h
    · cases h
  · cases h

theorem wordDateParse_valid {l : List Char} {v : YMD}
    (h : wordDateParse l = some v) : validYMD v = true := by
  unfold wordDateParse at h
  split at h
  · exact parseMDY_valid h
  · split at h
    · exact parseMDY_valid h
    · cases h
  · cases h

theorem slashDateParse_valid {l : List Char} {v : YMD}
    (h : slashDateParse l = some v) : validYMD v = true := by
  unfold slashDateParse at h
  split at h
  · split at h
    · split at h
      · exact mkValidYMD_valid h
      · cases h
    · cases h
  · cases h

theorem jsDateParse_valid {l : List Char} {v : YMD}
    (h : jsDateParse l = some v) : validYMD v = true := by
  unfold jsDateParse at h
  split at h
  · cases h; exact isoDateParse_valid (by assumption)
  · split at h
    · cases h; exact wordDateParse_valid (by assumption)
    · exact slashDateParse_valid h

theorem natDigits_all_digit (n : Nat) : ∀ c ∈ natDigits n, c.isDigit = true := by
  intro c hc
  obtain ⟨k, hk, rfl⟩ := mem_natDigits n c hc
  exact digitChar_isDigit hk

theorem padZeros_length {k : Nat} {l : List Char} (h : l.length ≤ k) :
    (padZeros k l).length = k := by
  unfold padZeros
  rw [List.length_append, List.length_replicate]
  omega

theorem padZeros_all_digit {k : Nat} {l : List Char}
    (h : ∀ c ∈ l, c.isDigit = true) : ∀ c ∈ padZeros k l, c.isDigit = true := by
  intro c hc
  unfold padZeros at hc
  rw [List.mem_append] at hc
  cases hc with
  | inl h0 =>
    have := List.eq_of_mem_replicate h0
    subst this
    decide
  | inr h1 => exact h c h1

theorem exists_len_two : ∀ {l : List Char}, l.length = 2 → ∃ a b, l = [a, b]
  | [], h => by simp at h
  | [_], h => by simp at h
  | [a, b], _ => ⟨a, b, rfl⟩
  | _ :: _ :: _ :: _, h => by simp at h

theorem exists_len_four : ∀ {l : List Char}, l.length = 4 → ∃ a b c d, l = [a, b, c, d]
  | [], h => by simp at h
  | [_], h => by simp at h
  | [_, _], h => by simp at h
  | [_, _, _], h => by simp at h
  | [a, b, c, d], _ => ⟨a, b, c, d, rfl⟩
  | _ :: _ :: _ :: _ :: _ :: _, h => by simp at h

theorem isCanonicalDate_fmtYMD {v : YMD} (h : validYMD v = true) :
    isCanonicalDate (fmtYMD v) = true := by
  unfold validYMD at h
  simp only [Bool.and_eq_true, decide_eq_true_eq] at h
  obtain ⟨⟨⟨⟨hy, hm1⟩, hm2⟩, hd1⟩, hd2⟩ := h
  have hy4 : (natDigits v.y).length ≤ 4 :=
    natDigits_length_le v.y 4 (by omega) (by omega)
  have hml : (natDigits v.m).length ≤ 2 :=
    natDigits_length_le v.m 2 (by omega) (by omega)
  have hdle : v.d ≤ 31 := le_trans hd2 (daysInMonth_le_31 v.y v.m)
  have hdl : (natDigits v.d).length ≤ 2 :=
    natDigits_length_le v.d 2 (by omega) (by omega)
  obtain ⟨a, b, c, d, hyeq⟩ := exists_len_four (padZeros_length hy4)
  obtain ⟨e, f, hmeq⟩ := exists_len_two (padZeros_length hml)
  obtain ⟨g, h2, hdeq⟩ := exists_len_two (padZeros_length hdl)
  have hya := padZeros_all_digit (k := 4) (natDigits_all_digit v.y)
  have hma := padZeros_all_digit (k := 2) (natDigits_all_digit v.m)
  have hda := padZeros_all_digit (k := 2) (natDigits_all_digit v.d)
  rw [hyeq] at hya
  rw [hmeq] at hma
  rw [hdeq] at hda
  have hlist : (fmtYMD v).data = [a, b, c, d, '-', e, f, '-', g, h2] := by
    show padZeros 4 (natDigits v.y) ++
      '-' :: (padZeros 2 (natDigits v.m) ++ '-' :: padZeros 2 (natDigits v.d)) = _
    rw [hyeq, hmeq, hdeq]
    rfl
  have ka := hya a (by simp)
  have kb := hya b (by simp)
  have kc := hya c (by simp)
  have kd := hya d (by simp)
  have ke := hma e (by simp)
  have kf := hma f (by simp)
  have kg := hda g (by simp)
  have kh := hda h2 (by simp)
  simp [isCanonicalDate, hlist, ka, kb, kc, kd, ke, kf, kg, kh]

/-- The function `parseDate` always produces a canonical `YYYY-MM-DD` string when the
clock is a valid date. -/
theorem parseDate_isCanonical (input : String) (now : YMD)
    (h : validYMD now = true) : isCanonicalDate (parseDate input now) = true := by
  unfold parseDate
  cases hl : longFormDate input with
  | some s =>
    unfold longFormDate at hl
    rw [Option.bind_eq_some] at hl
    obtain ⟨m, _, hmap⟩ := hl
    rw [Option.map_eq_some'] at hmap
    obtain ⟨v, hv, rfl⟩ := hmap
    exact isCanonicalDate_fmtYMD (jsDateParse_valid hv)
  | none =>
    cases hf : fallbackDate input with
    | some s =>
      unfold fallbackDate at hf
      rw [Option.bind_eq_some] at hf
      obtain ⟨m, _, hmap⟩ := hf
      rw [Option.map_eq_some'] at hmap
      obtain ⟨v, hv, rfl⟩ := hmap
      exact isCanonicalDate_fmtYMD (jsDateParse_valid hv)
    | none => exact isCanonicalDate_fmtYMD h

/-! ### The claims -/

/-- Claim C3: `resolveDate` (`parseDate`) on text containing
`"Friday, April 4th, 2025"` returns `"2025-04-04"`; on text containing only
`"2025-04-04"` it returns the same; on text with no recognizable date it
returns the current date, with the clock an explicit parameter (`now`) of the
embedding. -/
theorem claim_C3 (now : YMD) :
    parseDate "Friday, April 4th, 2025" now = "2025-04-04" ∧
    parseDate "2025-04-04" now = "2025-04-04" ∧
    parseDate "no recognizable date in this text" now = fmtYMD now :=
  ⟨rfl, rfl, rfl⟩

/-- Claim C6: `resolveDate` (`parseDate`) is total by construction and, for
every input string and valid clock, returns a string in canonical
`YYYY-MM-DD` shape — the clock's date in the worst case (no pattern matches
or the matched fragment is not a valid calendar date). -/
theorem claim_C6 (input : String) (now : YMD) (h : validYMD now = true) :
    isCanonicalDate (parseDate input now) = true :=
  parseDate_isCanonical input now h

/-- Witness for `claim_C6` at a concrete input and clock. -/
theorem claim_C6_witness :
    validYMD ⟨2025, 10, 11⟩ = true ∧
    isCanonicalDate (parseDate "nothing datelike 99" ⟨2025, 10, 11⟩) = true :=
  ⟨by decide, claim_C6 "nothing datelike 99" ⟨2025, 10, 11⟩ (by decide)⟩

/-- Claim C10: on a document with no tables at all, `parseRosterFromHtml`
raises the grid-header structural failure (the content-row list is empty), not
the `TypeError` of the later `parseInfoTable(undefined)` call: the parse
aborts before the undefined metadata table is inspected, and no `Roster` is
returned. -/
theorem claim_C10 (bodyText : String) (now : YMD) :
    parseRosterFromHtml ⟨[], bodyText⟩ now =
      .error "Assignment table header not found." :=
  rfl

/-- Claim C4, against the code: the charge-nurse capture group `([\w\-]+)` of
`/CHARGE NURSE:\s*([\w\-]+)/i` has no `#`, so on the info row
`"CHARGE NURSE: #7501 7A-7P"` the regex fails to match at all and the
day-shift lead-nurse field stays empty — the spec's expected `"#7501"` is
unreachable — while the same row without the `#` yields `"7501"`. -/
theorem claim_C4 (now : YMD) :
    (parseInfoTable infoTblSharp now).chargeDay = "" ∧
    (parseInfoTable infoTblPlain now).chargeDay = "7501" :=
  ⟨rfl, rfl⟩

/-- Claim C7: `autoMapHeaders` maps a key to the index of the first header cell
whose normalized text contains the normalized key (`normIncl`), and to the
sentinel `-1` when no cell matches; in particular a header cell reading
`"RN Day's"` is found under the key `"rnday"`. -/
theorem claim_C7 :
    (∀ (cells : List String) (key : String) (i : Nat),
      (autoMapKey cells key = (i : Int) ↔
        i < cells.length ∧ normIncl (cells.getD i default) key = true ∧
          ∀ j, j < i → normIncl (cells.getD j default) key = false)) ∧
    (∀ (cells : List String) (key : String),
      (autoMapKey cells key = -1 ↔ ∀ c ∈ cells, normIncl c key = false)) ∧
    autoMapKey ["RN Day's"] "rnday" = 0 := by
  have hpred : ∀ key : String,
      (fun h => strIncludes (jsToLower (stripWs h)) (stripWs (jsToLower key))) =
        (fun h => normIncl h key) := fun _ => rfl
  refine ⟨?_, ?_, by decide⟩
  · intro cells key i
    unfold autoMapKey
    rw [hpred key]
    cases hf : cells.findIdx? (fun h => normIncl h key) with
    | some j =>
      show (j : Int) = (i : Int) ↔ _
      obtain ⟨h1, h2, h3⟩ := (findIdx?_iff_first (fun h => normIncl h key) cells j).mp hf
      constructor
      · intro he
        have : j = i := by exact_mod_cast he
        subst this
        exact ⟨h1, h2, h3⟩
      · intro ⟨k1, k2, k3⟩
        have : j = i := by
          rcases Nat.lt_trichotomy j i with hlt | heq | hgt
          · exact absurd (h2.symm.trans (k3 j hlt)) (by decide)
          · exact heq
          · exact absurd (k2.symm.trans (h3 i hgt)) (by decide)
        exact_mod_cast congrArg (fun n : Nat => (n : Int)) this
    | none =>
      show (-1 : Int) = (i : Int) ↔ _
      rw [List.findIdx?_eq_none_iff] at hf
      constructor
      · intro he
        exact absurd he (by omega)
      · intro ⟨k1, k2, _⟩
        have hm : cells.getD i default ∈ cells := by
          rw [List.getD_eq_getElem?_getD, List.getElem?_eq_getElem k1]
          exact List.getElem_mem k1
        rw [hf _ hm] at k2
        cases k2
  · intro cells key
    unfold autoMapKey
    rw [hpred key]
    cases hf : cells.findIdx? (fun h => normIncl h key) with
    | some j =>
      show (j : Int) = (-1 : Int) ↔ _
      constructor
      · intro he
        exact absurd he (by omega)
      · intro hall
        obtain ⟨h1, h2, _⟩ := (findIdx?_iff_first (fun h => normIncl h key) cells j).mp hf
        have hm : cells.getD j default ∈ cells := by
          rw [List.getD_eq_getElem?_getD, List.getElem?_eq_getElem h1]
          exact List.getElem_mem h1
        rw [hall _ hm] at h2
        cases h2
    | none =>
      show (-1 : Int) = (-1 : Int) ↔ _
      rw [List.findIdx?_eq_none_iff] at hf
      exact ⟨fun _ => hf, fun _ => rfl⟩

/-- Witness for `claim_C7`: the characterization applied at a concrete header
list, key and index. -/
theorem claim_C7_witness : autoMapKey ["MRN", "RN Day's"] "rnday" = (1 : Int) :=
  (claim_C7.1 ["MRN", "RN Day's"] "rnday" 1).mpr
    ⟨by decide, by decide, by
      intro j hj
      have hj0 : j = 0 := by omega
      subst hj0
      decide⟩

/-- Claim C9: grid-row placement is total on malformed rows: a row whose room
cell does not parse as an integer, or parses outside `[lo, hi]`, leaves the
slots untouched; and cell access through the `-1` sentinel or past the end of
the cell list reads as the empty string.  The listed garbage room values all
fail to parse or fall out of range. -/
theorem claim_C9 :
    (∀ (lo hi : Nat) (colOf : String → Int) (asg : List AssignmentRow) (row : TableRow),
      (jsParseInt (roomTextOf colOf row) = none ∨
        ∃ v, jsParseInt (roomTextOf colOf row) = some v ∧
          (v < (lo : Int) ∨ (hi : Int) < v)) →
      placeRow lo hi colOf asg row = asg) ∧
    (∀ (cells : List Cell) (i : Int), i < 0 ∨ (cells.length : Int) ≤ i →
      getCellText (cellAt cells i) = "") ∧
    jsParseInt "999" = some 999 ∧ jsParseInt "abc" = none ∧ jsParseInt "" = none := by
  refine ⟨?_, ?_, by decide, by decide, by decide⟩
  · intro lo hi colOf asg row h
    unfold placeRow
    rcases h with hnone | ⟨v, hv, hout⟩
    · rw [hnone]
    · rw [hv]
      have hcond : ((lo : Int) ≤ v && v ≤ (hi : Int)) = false := by
        simp only [Bool.and_eq_false_iff, decide_eq_false_iff_not]
        omega
      simp only [hcond, Bool.false_eq_true, if_false]
  · intro cells i h
    unfold cellAt
    rcases h with hneg | hbig
    · rw [if_pos hneg]
      rfl
    · have hnn : ¬ i < 0 := by omega
      rw [if_neg hnn]
      have : cells[i.toNat]? = none := by
        rw [List.getElem?_eq_none]
        omega
      rw [this]
      rfl

/-- Witness for `claim_C9`: an out-of-range room row does not modify the
default slots, and the sentinel column reads as empty. -/
theorem claim_C9_witness :
    placeRow 501 532 colOf0 (initAssignments 501 532) ⟨"999 x", [⟨"999"⟩, ⟨"x"⟩]⟩ =
      initAssignments 501 532 ∧
    getCellText (cellAt [⟨"a"⟩] (-1)) = "" :=
  ⟨claim_C9.1 501 532 colOf0 (initAssignments 501 532) ⟨"999 x", [⟨"999"⟩, ⟨"x"⟩]⟩
      (Or.inr ⟨999, by decide, by decide⟩),
    claim_C9.2.1 [⟨"a"⟩] (-1) (Or.inl (by decide))⟩

/-! ### Helper lemmas: the entry point's two outcomes -/

theorem parseRoster_error_of_findIdx_none (doc : HtmlDoc) (now : YMD)
    (hf : (contentRowsOf doc).findIdx? headerPred = none) :
    parseRosterFromHtml doc now = .error "Assignment table header not found." := by
  have hg : parseAssignmentsAndBottomSection (contentRowsOf doc) 501 532 =
      .error "Assignment table header not found." := by
    unfold parseAssignmentsAndBottomSection
    rw [hf]
  unfold parseRosterFromHtml
  rw [hg]
  rfl

theorem parseRoster_ok_of_findIdx_some (doc : HtmlDoc) (now : YMD) (k : Nat)
    (hk : (contentRowsOf doc).findIdx? headerPred = some k)
    (htbl : doc.tables ≠ []) :
    ∃ ros, parseRosterFromHtml doc now = .ok ros := by
  have hg : parseAssignmentsAndBottomSection (contentRowsOf doc) 501 532 =
      .ok (gridWithHeader (contentRowsOf doc) k 501 532) := by
    unfold parseAssignmentsAndBottomSection
    rw [hk]
  have hidx : ∃ m, infoTableIdx doc = some m := by
    unfold infoTableIdx
    cases doc.tables.findIdx? infoTablePred with
    | some i => exact ⟨i, rfl⟩
    | none =>
      have hne : doc.tables.isEmpty = false := by
        rcases hts : doc.tables with _ | ⟨t, ts⟩
        · exact absurd hts htbl
        · rfl
      rw [hne]
      exact ⟨0, rfl⟩
  obtain ⟨m, hm⟩ := hidx
  unfold parseRosterFromHtml
  rw [hg, hm]
  exact ⟨_, rfl⟩

/-- Claim C2: when no content row contains both the room and patient tokens,
`parseRosterFromHtml` fails with the structural error message and returns no
`Roster`; when some content row does, the parse succeeds; and the first
qualifying row is the one taken as the grid header. -/
theorem claim_C2 :
    (∀ (doc : HtmlDoc) (now : YMD),
      (∀ r ∈ contentRowsOf doc, headerPred r = false) →
      parseRosterFromHtml doc now = .error "Assignment table header not found.") ∧
    (∀ (doc : HtmlDoc) (now : YMD),
      (∃ r ∈ contentRowsOf doc, headerPred r = true) →
      ∃ ros, parseRosterFromHtml doc now = .ok ros) ∧
    (∀ (rows : List TableRow) (lo hi k : Nat),
      k < rows.length → headerPred (rows.getD k default) = true →
      (∀ j, j < k → headerPred (rows.getD j default) = false) →
      parseAssignmentsAndBottomSection rows lo hi = .ok (gridWithHeader rows k lo hi)) := by
  refine ⟨?_, ?_, ?_⟩
  · intro doc now hall
    exact parseRoster_error_of_findIdx_none doc now (findIdx?_none_of_all headerPred _ hall)
  · intro doc now ⟨r, hr, hpr⟩
    have hk : ∃ k, (contentRowsOf doc).findIdx? headerPred = some k := by
      cases hf : (contentRowsOf doc).findIdx? headerPred with
      | none =>
        rw [List.findIdx?_eq_none_iff] at hf
        rw [hf r hr] at hpr
        cases hpr
      | some k => exact ⟨k, rfl⟩
    obtain ⟨k, hk⟩ := hk
    have htbl : doc.tables ≠ [] := by
      intro hemp
      have hcontent : contentRowsOf doc = [] := by
        unfold contentRowsOf
        rw [hemp]
        rfl
      rw [hcontent] at hr
      cases hr
    exact parseRoster_ok_of_findIdx_some doc now k hk htbl
  · intro rows lo hi k hk hpk hlt
    unfold parseAssignmentsAndBottomSection
    rw [(findIdx?_iff_first headerPred rows k).mpr ⟨hk, hpk, hlt⟩]

/-- Witness for `claim_C2`: a header-less document errors with the exact
message, a document with a header row parses, and the first qualifying row of
a concrete row list is taken as the header. -/
theorem claim_C2_witness :
    parseRosterFromHtml docNoHeader clock0 = .error "Assignment table header not found." ∧
    (∃ ros, parseRosterFromHtml docSample clock0 = .ok ros) ∧
    parseAssignmentsAndBottomSection [hdrRow] 501 532 = .ok (gridWithHeader [hdrRow] 0 501 532) :=
  ⟨claim_C2.1 docNoHeader clock0 (by decide),
    claim_C2.2.1 docSample clock0 ⟨hdrRow, by decide, by decide⟩,
    claim_C2.2.2 [hdrRow] 501 532 0 (by decide) (by decide) (by omega)⟩

/-- Claim C5: the metadata table is the first table whose text contains the
lead-nurse marker; with no qualifying table the first table is used; and for a
document with at least one table the parse never fails for this reason — it
either succeeds or fails with the grid-header error. -/
theorem claim_C5 :
    (∀ (doc : HtmlDoc) (k : Nat),
      k < doc.tables.length →
      infoTablePred (doc.tables.getD k default) = true →
      (∀ j, j < k → infoTablePred (doc.tables.getD j default) = false) →
      infoTableIdx doc = some k) ∧
    (∀ doc : HtmlDoc, doc.tables ≠ [] →
      (∀ t ∈ doc.tables, infoTablePred t = false) →
      infoTableIdx doc = some 0) ∧
    (∀ (doc : HtmlDoc) (now : YMD), doc.tables ≠ [] →
      (∃ ros, parseRosterFromHtml doc now = .ok ros) ∨
        parseRosterFromHtml doc now = .error "Assignment table header not found.") := by
  refine ⟨?_, ?_, ?_⟩
  · intro doc k hk hp hlt
    unfold infoTableIdx
    rw [(findIdx?_iff_first infoTablePred doc.tables k).mpr ⟨hk, hp, hlt⟩]
  · intro doc htbl hall
    unfold infoTableIdx
    rw [findIdx?_none_of_all infoTablePred _ hall]
    have hne : doc.tables.isEmpty = false := by
      rcases hts : doc.tables with _ | ⟨t, ts⟩
      · exact absurd hts htbl
      · rfl
    rw [hne]
    rfl
  · intro doc now htbl
    cases hf : (contentRowsOf doc).findIdx? headerPred with
    | none => exact Or.inr (parseRoster_error_of_findIdx_none doc now hf)
    | some k => exact Or.inl (parseRoster_ok_of_findIdx_some doc now k hf htbl)

/-- Witness for `claim_C5`: the keyword table of `docSample` is chosen, the
keyword-less single table of `docNoHeader` is chosen by fallback, and the
error-shape disjunction at a concrete document. -/
theorem claim_C5_witness :
    infoTableIdx docSample = some 0 ∧
    infoTableIdx docNoHeader = some 0 ∧
    ((∃ ros, parseRosterFromHtml docSample clock0 = .ok ros) ∨
      parseRosterFromHtml docSample clock0 = .error "Assignment table header not found.") :=
  ⟨claim_C5.1 docSample 0 (by decide) (by decide) (by omega),
    claim_C5.2.1 docNoHeader (by decide) (by decide),
    claim_C5.2.2 docSample clock0 (by decide)⟩

/-- Claim C8: duplicate room rows — the slot of a room whose last claimant in
document order is the row at index `j` holds exactly the record built from
that row; earlier claimants of the same room leave no trace. -/
theorem claim_C8 (lo hi : Nat) (colOf : String → Int) (rows : List TableRow)
    (init : List AssignmentRow) (j room : Nat)
    (h1 : j < rows.length)
    (h2 : rowClaims colOf (rows.getD j default) room = true)
    (h3 : lo ≤ room) (h4 : room ≤ hi) (h5 : room - lo < init.length)
    (h6 : ∀ k, j < k → k < rows.length →
      rowClaims colOf (rows.getD k default) room = false) :
    (rows.foldl (placeRow lo hi colOf) init).getD (room - lo) default =
      builtRow colOf (rows.getD j default).cells
        (roomTextOf colOf (rows.getD j default)) :=
  foldl_placeRow_last_writer lo hi colOf rows init j room h1 h2 h3 h4 h5 h6

/-- Witness for `claim_C8`: two rows both claiming room 505 with different
patient text — the slot holds the later row's record. -/
theorem claim_C8_witness :
    ([dupRowA, dupRowB].foldl (placeRow 501 532 colOf0)
        (initAssignments 501 532)).getD (505 - 501) default =
      builtRow colOf0 ([dupRowA, dupRowB].getD 1 default).cells
        (roomTextOf colOf0 ([dupRowA, dupRowB].getD 1 default)) :=
  claim_C8 501 532 colOf0 [dupRowA, dupRowB] (initAssignments 501 532) 1 505
    (by decide) (by decide) (by omega) (by omega) (by decide)
    (fun k hk1 hk2 => by
      simp only [List.length_cons, List.length_nil] at hk2
      omega)

/-- Claim C1: a successful parse returns exactly `hi - lo + 1` assignment
slots; slot `i` carries a room string that parses back to room `lo + i`
(ascending room order); a slot no body row claims keeps its default row.  At
the entry point the configuration is the default `501..532`, so a returned
`Roster` has 32 slots in ascending room order. -/
theorem claim_C1 :
    (∀ (rows : List TableRow) (lo hi : Nat) (res : GridResult),
      lo ≤ hi →
      parseAssignmentsAndBottomSection rows lo hi = .ok res →
      res.assignments.length = hi - lo + 1 ∧
      (∀ i, i < res.assignments.length →
        jsParseInt ((res.assignments.getD i default).room) = some ((lo + i : Nat) : Int)) ∧
      (∀ i, i < hi - lo + 1 →
        (∀ hIdx, rows.findIdx? headerPred = some hIdx →
          ∀ r ∈ bodyRowsAt rows hIdx, rowClaims (colOfAt rows hIdx) r (lo + i) = false) →
        res.assignments.getD i default = defaultRow (lo + i))) ∧
    (∀ (doc : HtmlDoc) (now : YMD) (ros : Roster),
      parseRosterFromHtml doc now = .ok ros →
      ros.assignments.length = 32 ∧
      (∀ i, i < 32 →
        jsParseInt ((ros.assignments.getD i default).room) = some ((501 + i : Nat) : Int))) := by
  have core : ∀ (rows : List TableRow) (lo hi : Nat) (res : GridResult),
      lo ≤ hi →
      parseAssignmentsAndBottomSection rows lo hi = .ok res →
      res.assignments.length = hi - lo + 1 ∧
      (∀ i, i < res.assignments.length →
        jsParseInt ((res.assignments.getD i default).room) = some ((lo + i : Nat) : Int)) ∧
      (∀ i, i < hi - lo + 1 →
        (∀ hIdx, rows.findIdx? headerPred = some hIdx →
          ∀ r ∈ bodyRowsAt rows hIdx, rowClaims (colOfAt rows hIdx) r (lo + i) = false) →
        res.assignments.getD i default = defaultRow (lo + i)) := by
    intro rows lo hi res hle hok
    unfold parseAssignmentsAndBottomSection at hok
    cases hf : rows.findIdx? headerPred with
    | none =>
      rw [hf] at hok
      cases hok
    | some hIdx =>
      rw [hf] at hok
      have hres : res = gridWithHeader rows hIdx lo hi := (Except.ok.inj hok).symm
      subst hres
      have hassign : (gridWithHeader rows hIdx lo hi).assignments =
          (bodyRowsAt rows hIdx).foldl (placeRow lo hi (colOfAt rows hIdx))
            (initAssignments lo hi) := rfl
      have hlen0 : (initAssignments lo hi).length = hi - lo + 1 :=
        initAssignments_length lo hi hle
      have hlen : (gridWithHeader rows hIdx lo hi).assignments.length = hi - lo + 1 := by
        rw [hassign, foldl_placeRow_length, hlen0]
      have hinit : ∀ i, i < (initAssignments lo hi).length →
          jsParseInt (((initAssignments lo hi).getD i default).room) =
            some ((lo + i : Nat) : Int) := by
        intro i hi''
        rw [hlen0] at hi''
        rw [initAssignments_getD lo hi i (by omega)]
        exact jsParseInt_natRepr (lo + i)
      refine ⟨hlen, ?_, ?_⟩
      · intro i hi'
        rw [hlen] at hi'
        rw [hassign]
        exact foldl_placeRow_parse_invariant lo hi (colOfAt rows hIdx)
          (bodyRowsAt rows hIdx) (initAssignments lo hi) hinit i (by omega)
      · intro i hi' hnone
        rw [hassign,
          foldl_placeRow_getD_of_not_claimed lo hi (colOfAt rows hIdx)
            (bodyRowsAt rows hIdx) (initAssignments lo hi) i (hnone hIdx rfl)]
        exact initAssignments_getD lo hi i (by omega)
  refine ⟨core, ?_⟩
  intro doc now ros hok
  unfold parseRosterFromHtml at hok
  cases hg : parseAssignmentsAndBottomSection (contentRowsOf doc) 501 532 with
  | error e =>
    rw [hg] at hok
    exact Except.noConfusion hok
  | ok grid =>
    rw [hg] at hok
    cases hm : infoTableIdx doc with
    | none =>
      rw [hm] at hok
      exact Except.noConfusion hok
    | some m =>
      rw [hm] at hok
      have hros := (Except.ok.inj hok).symm
      have hasg : ros.assignments = grid.assignments := by
        rw [hros]
      obtain ⟨hl, hs, _⟩ := core (contentRowsOf doc) 501 532 grid (by omega) hg
      rw [hasg]
      exact ⟨by rw [hl], fun i hi' => hs i (by omega)⟩

/-- Witness for `claim_C1`: parsing the one-row table `[hdrRow]` in the
default configuration yields 32 slots, and the unclaimed slot 0 is the
default row for room 501. -/
theorem claim_C1_witness :
    res1.assignments.length = 532 - 501 + 1 ∧
    res1.assignments.getD 0 default = defaultRow (501 + 0) := by
  have happ := claim_C1.1 [hdrRow] 501 532 res1 (by omega) rfl
  refine ⟨happ.1, happ.2.2 0 (by omega) ?_⟩
  intro hIdx hf r hr
  have h0 : hIdx = 0 := by
    have hcomp : ([hdrRow].findIdx? headerPred) = some 0 := by decide
    rw [hcomp] at hf
    exact (Option.some.inj hf).symm
  subst h0
  have hempty : bodyRowsAt [hdrRow] 0 = [] := rfl
  rw [hempty] at hr
  cases hr
